import Mathlib

/-!
Verification of the masked-array core of NDducktype_tests (MaskedArray.py).

The development shallowly embeds the (data, mask) dual-array model and the
mask-propagation rules of the dispatched operations as Lean functions over
lists.  Arrays are modelled one-dimensional (the axis semantics of the
underlying storage collaborator are out of scope); integer dtypes are
modelled by Int, float intermediates (mean, var) by Rat, with division
total (numpy runs these under errstate-ignore, so a zero divisor yields a
discarded value, never an exception).  Each definition is translated from
the corresponding Python source in src/MaskedArray.py; the source line
numbers are given in the doc comments.
-/

namespace NDDuck

/-- The dual-array data model (`MaskedArray.__init__`, MaskedArray.py
lines 168-276): an array `data` paired with a boolean `mask` of the same
shape, here modelled one-dimensional.  The shape invariant
`mask.length = data.length` is carried as a hypothesis where needed. -/
structure MaskedArray (α : Type) where
  data : List α
  mask : List Bool
  deriving Repr, DecidableEq

/-- The zero-dimensional counterpart (`MaskedScalar.__init__`, lines
495-553): one value and one boolean. -/
structure MaskedScalar (α : Type) where
  data : α
  mask : Bool
  deriving Repr, DecidableEq

/-- `d = data.copy(); d[mask] = fill_value` (the core of
`MaskedArray.filled`, lines 413-422): every masked position is replaced
by the fill value, unmasked positions keep their data. -/
def filledL {α : Type} (data : List α) (mask : List Bool) (fv : α) : List α :=
  List.zipWith (fun d m => if m then fv else d) data mask

/-- `MaskedArray.filled` (lines 413-422) specialised to an explicit fill
value (fill-value resolution of `_get_fill_value`, lines 106-124, is
applied by the caller). -/
def MaskedArray.filled {α : Type} (a : MaskedArray α) (fv : α) : List α :=
  filledL a.data a.mask fv

/-- `MaskedArray.count` (line 479): `(~mask).sum()`, the number of
non-masked elements (full reduction, axis omitted). -/
def MaskedArray.count {α : Type} (a : MaskedArray α) : Nat :=
  a.mask.count false

/-- The elements at unmasked positions, in order (the "real" values of
the array; used to state the sorting and round-trip properties). -/
def unmaskedL {α : Type} (data : List α) (mask : List Bool) : List α :=
  (data.zip mask).filterMap (fun p => if p.2 then none else some p.1)

/-- `np.ufunc.reduce` of the storage collaborator on a 1-d array:
the reduction of an empty array is the identity, otherwise the kernel is
folded from the first element. -/
def npReduce {α : Type} (f : α → α → α) (ident : α) : List α → α
  | [] => ident
  | x :: xs => xs.foldl f x

/-- `np.logical_and.reduce` on a boolean 1-d array (used for every
reduction output mask, e.g. line 981, line 1428, line 1891). -/
def npAll (l : List Bool) : Bool :=
  npReduce (fun x y => x && y) true l

/-- `np.add.reduce` on the 1-d data. -/
def npSum (l : List Int) : Int :=
  npReduce (fun x y => x + y) 0 l

/-- `np.multiply.reduce` on the 1-d data. -/
def npProd (l : List Int) : Int :=
  npReduce (fun x y => x * y) 1 l

/-- `sum` (lines 1886-1892): data is the plain sum of the 0-filled data,
mask is `np.all` of the input mask. -/
def sumMA (a : MaskedArray Int) : MaskedScalar Int :=
  ⟨npSum (a.filled 0), npAll a.mask⟩

/-- `prod` (lines 1861-1867): data is the plain product of the 1-filled
data, mask is `np.all` of the input mask. -/
def prodMA (a : MaskedArray Int) : MaskedScalar Int :=
  ⟨npProd (a.filled 1), npAll a.mask⟩

/-- `_Masked_BinOp.reduce` (lines 943-989), full 1-d reduction: the
masked entries of the data are overwritten with the reduce fill value
(`reduce_fill`, which defaults to the ufunc identity, lines 900-907),
the plain kernel reduce runs on the filled data, and the output mask is
`np.logical_and.reduce` of the input mask. -/
def reduceMA (f : Int → Int → Int) (fill : Int) (a : MaskedArray Int) :
    MaskedScalar Int :=
  ⟨npReduce f fill (a.filled fill), npAll a.mask⟩

/-- `mean` (lines 1382-1444), full 1-d reduction: `rcount = a.count()`,
`ret = np.sum(a.filled(0)) / rcount` under errstate-ignore (division is
total here, matching: a zero count never raises), and
`retmask = np.all(a._mask)`. -/
def meanMA (a : MaskedArray Int) : MaskedScalar Rat :=
  ⟨((npSum (a.filled 0) : Int) : Rat) / ((a.count : Nat) : Rat), npAll a.mask⟩

/-- `var` (lines 1446-1510), full 1-d reduction, following the code:
`arrmean = a.filled(0).sum() / count`; `x = (a - arrmean)` (a masked
binary op: data computed on the raw data, mask unchanged); `x = x*x`;
`ret = x.filled(0).sum()`; `rcount = np.maximum(count - ddof, 0)`;
`ret / rcount` under errstate-ignore; result mask `rcount == 0`. -/
def varMA (a : MaskedArray Int) (ddof : Nat) : MaskedScalar Rat :=
  let rcount : Nat := a.count
  let arrmean : Rat := ((npSum (a.filled 0) : Int) : Rat) / ((rcount : Nat) : Rat)
  let x : List Rat := a.data.map (fun d => ((d : Int) : Rat) - arrmean)
  let xsq : List Rat := x.map (fun v => v * v)
  let ret : Rat := npReduce (fun p q => p + q) 0 (filledL xsq a.mask 0)
  let dof : Int := max ((rcount : Int) - (ddof : Int)) 0
  ⟨ret / ((dof : Int) : Rat), decide (dof = 0)⟩

/-- `MaskedScalar.__bool__` (lines 601-604): a masked scalar is falsy;
an unmasked scalar has the truth value of its data (`bool` of a numpy
numeric scalar: nonzero). -/
def MaskedScalar.toBool (s : MaskedScalar Int) : Bool :=
  if s.mask then false else decide (s.data ≠ 0)

/-- The `MaskedArray(data, mask)` constructor branch taken for a plain
data array with an already-boolean mask of the same shape (lines
260-273): both components are taken as given. -/
def mkMaskedArray (data : List Int) (mask : List Bool) : MaskedArray Int :=
  ⟨data, mask⟩

section Lemmas

/-- `npAll` is the conjunction of the list. -/
theorem npAll_eq_all (l : List Bool) : npAll l = l.all (fun x => x) := by
  cases l with
  | nil => rfl
  | cons x xs =>
    simp only [npAll, npReduce, List.all_cons]
    induction xs generalizing x with
    | nil => simp
    | cons y ys ih =>
      simp only [List.foldl_cons, List.all_cons, ih (x && y), Bool.and_assoc]

theorem npAll_eq_true_iff (l : List Bool) :
    npAll l = true ↔ ∀ m ∈ l, m = true := by
  rw [npAll_eq_all]
  simp [List.all_eq_true]

/-- If no entry of the mask is false, every entry is true. -/
theorem count_false_zero_all_true (l : List Bool) (h : l.count false = 0) :
    ∀ m ∈ l, m = true := by
  intro m hm
  cases m with
  | true => rfl
  | false =>
    exfalso
    have := List.count_pos_iff.mpr hm
    omega

/-- Reading the filled data: a masked position holds the fill value, an
unmasked position holds the original data. -/
theorem filledL_getD {α : Type} (data : List α) (mask : List Bool) (fv d0 : α)
    (i : Nat) (h : i < data.length) (hlen : mask.length = data.length) :
    (filledL data mask fv).getD i d0 =
      if mask.getD i false then fv else data.getD i d0 := by
  induction data generalizing mask i with
  | nil => simp at h
  | cons x xs ih =>
    cases mask with
    | nil => simp at hlen
    | cons m ms =>
      cases i with
      | zero => simp [filledL]
      | succ j =>
        simp only [filledL, List.zipWith_cons_cons, List.getD_cons_succ]
        exact ih ms j (by simpa using h) (by simpa using hlen)

theorem filledL_length {α : Type} (data : List α) (mask : List Bool) (fv : α) :
    (filledL data mask fv).length = min data.length mask.length := by
  simp [filledL]

end Lemmas

end NDDuck

namespace NDDuck

/-- `MaskedArray.sort` (lines 482-487) and the functional `np.sort`
implementation (lines 1282-1293): overwrite the masked data positions
with the min-filler (`_min_filler[dtype]`, the maximal value of the
dtype, lines 747-748), sort the data with the plain sort primitive, and
independently sort the mask along the same axis (false before true).
The plain stable sort primitive of the storage collaborator is modelled
by insertion sort. -/
def sortMA (a : MaskedArray Int) (filler : Int) : MaskedArray Int :=
  ⟨List.insertionSort (fun x y => x ≤ y) (a.filled filler),
   List.insertionSort (fun x y => x ≤ y) a.mask⟩

section SortLemmas

/-- The filled data is a permutation of the unmasked values followed by
one filler per masked position. -/
theorem filledL_perm {α : Type} (data : List α) (mask : List Bool) (fv : α)
    (hlen : mask.length = data.length) :
    (filledL data mask fv).Perm
      (unmaskedL data mask ++ List.replicate (mask.count true) fv) := by
  induction data generalizing mask with
  | nil =>
    cases mask with
    | nil => simp [filledL, unmaskedL]
    | cons m ms => simp at hlen
  | cons x xs ih =>
    cases mask with
    | nil => simp at hlen
    | cons m ms =>
      have hlen' : ms.length = xs.length := by simpa using hlen
      have ihm := ih ms hlen'
      cases m with
      | false =>
        have h1 : filledL (x :: xs) (false :: ms) fv = x :: filledL xs ms fv := by
          simp [filledL]
        have hu : unmaskedL (x :: xs) (false :: ms) = x :: unmaskedL xs ms := by
          simp [unmaskedL]
        have hc : (false :: ms).count true = ms.count true := by
          simp [List.count_cons]
        rw [h1, hu, hc]
        exact ihm.cons x
      | true =>
        have h1 : filledL (x :: xs) (true :: ms) fv = fv :: filledL xs ms fv := by
          simp [filledL]
        have hu : unmaskedL (x :: xs) (true :: ms) = unmaskedL xs ms := by
          simp [unmaskedL]
        have hc : (true :: ms).count true = ms.count true + 1 := by
          simp [List.count_cons]
        rw [h1, hu, hc, List.replicate_succ]
        exact (ihm.cons fv).trans List.perm_middle.symm

/-- Every unmasked value is a data value. -/
theorem unmaskedL_subset {α : Type} (data : List α) (mask : List Bool) :
    ∀ x ∈ unmaskedL data mask, x ∈ data := by
  intro x hx
  simp only [unmaskedL, List.mem_filterMap] at hx
  obtain ⟨p, hp, hpx⟩ := hx
  have h1 : p.1 ∈ data := (List.of_mem_zip hp).1
  by_cases h : p.2 = true
  · simp [h] at hpx
  · simp only [h, if_neg] at hpx
    simp only [Bool.not_eq_true] at h
    simp [h] at hpx
    exact hpx ▸ h1

theorem sorted_replicate {α : Type} [Preorder α] (n : Nat) (c : α) :
    List.Sorted (fun x y => x ≤ y) (List.replicate n c) := by
  induction n with
  | zero => simp
  | succ k ih =>
    rw [List.replicate_succ]
    exact List.Pairwise.cons
      (fun b hb => by rw [List.eq_of_mem_replicate hb]) ih

/-- The number of unmasked values equals the count of false mask
entries. -/
theorem unmaskedL_length {α : Type} (data : List α) (mask : List Bool)
    (hlen : mask.length = data.length) :
    (unmaskedL data mask).length = mask.count false := by
  induction data generalizing mask with
  | nil =>
    cases mask with
    | nil => simp [unmaskedL]
    | cons m ms => simp at hlen
  | cons x xs ih =>
    cases mask with
    | nil => simp at hlen
    | cons m ms =>
      have hlen' : ms.length = xs.length := by simpa using hlen
      have h' := ih ms hlen'
      simp only [unmaskedL] at h'
      cases m with
      | false => simp [unmaskedL, List.count_cons, h']
      | true => simp [unmaskedL, List.count_cons, h']

end SortLemmas

/-- C4: sorting a masked array sorts the min-filled data and
independently sorts the mask; as a result the data of the sorted array
is the sorted list of unmasked values followed by one filler per masked
element (so the unmasked values are in non-decreasing order, in the
order plain sorting gives them), the mask is false on an initial
segment and true on the final segment (every masked element after every
unmasked element), and the whole data is sorted. -/
theorem sort_spec (a : MaskedArray Int) (filler : Int)
    (hlen : a.mask.length = a.data.length)
    (hb : ∀ x ∈ a.data, x ≤ filler) :
    (sortMA a filler).data =
      List.insertionSort (fun x y => x ≤ y) (unmaskedL a.data a.mask) ++
        List.replicate (a.mask.count true) filler ∧
    (sortMA a filler).mask =
      List.replicate (a.mask.count false) false ++
        List.replicate (a.mask.count true) true ∧
    List.Sorted (fun x y => x ≤ y) (sortMA a filler).data := by
  have hdata : (sortMA a filler).data =
      List.insertionSort (fun x y => x ≤ y) (unmaskedL a.data a.mask) ++
        List.replicate (a.mask.count true) filler := by
    apply List.eq_of_perm_of_sorted (r := fun x y : Int => x ≤ y)
    · have p1 : (sortMA a filler).data.Perm (a.filled filler) :=
        List.perm_insertionSort _ _
      have p2 : (a.filled filler).Perm
          (unmaskedL a.data a.mask ++ List.replicate (a.mask.count true) filler) :=
        filledL_perm a.data a.mask filler hlen
      have p3 : (unmaskedL a.data a.mask ++
            List.replicate (a.mask.count true) filler).Perm
          (List.insertionSort (fun x y => x ≤ y) (unmaskedL a.data a.mask) ++
            List.replicate (a.mask.count true) filler) :=
        ((List.perm_insertionSort _ _).symm).append_right _
      exact (p1.trans p2).trans p3
    · exact List.sorted_insertionSort _ _
    · rw [List.Sorted, List.pairwise_append]
      refine ⟨List.sorted_insertionSort _ _, sorted_replicate _ _, ?_⟩
      intro x hx y hy
      rw [List.eq_of_mem_replicate hy]
      exact hb x (unmaskedL_subset a.data a.mask x
        ((List.mem_insertionSort _).mp hx))
  refine ⟨hdata, ?_, hdata ▸ ?_⟩
  · apply List.eq_of_perm_of_sorted (r := fun x y : Bool => x ≤ y)
    · have p1 : (sortMA a filler).mask.Perm a.mask :=
        List.perm_insertionSort _ _
      refine p1.trans (List.perm_iff_count.mpr ?_)
      intro b
      cases b <;>
        simp [List.count_append, List.count_replicate]
    · exact List.sorted_insertionSort _ _
    · rw [List.Sorted, List.pairwise_append]
      refine ⟨sorted_replicate _ _, sorted_replicate _ _, ?_⟩
      intro x hx y hy
      rw [List.eq_of_mem_replicate hx, List.eq_of_mem_replicate hy]
      simp
  · rw [List.Sorted, List.pairwise_append]
    refine ⟨List.sorted_insertionSort _ _, sorted_replicate _ _, ?_⟩
    intro x hx y hy
    rw [List.eq_of_mem_replicate hy]
    exact hb x (unmaskedL_subset a.data a.mask x
      ((List.mem_insertionSort _).mp hx))

/-- Witness for C4, the end-to-end example of the spec:
sorting data [3, X, 1] (filler 100) gives data order [1, 3, filler] with
mask [false, false, true]. -/
theorem sort_spec_witness :
    (sortMA ⟨[3, 7, 1], [false, true, false]⟩ 100).data = [1, 3, 100] ∧
    (sortMA ⟨[3, 7, 1], [false, true, false]⟩ 100).mask =
      [false, false, true] := by
  have h := sort_spec ⟨[3, 7, 1], [false, true, false]⟩ 100
    (by decide) (by decide)
  exact ⟨h.1.trans (by decide), h.2.1.trans (by decide)⟩

section IndexLemmas

theorem getD_map {α β : Type} (f : α → β) (l : List α) (i : Nat) (d : β)
    (d0 : α) (h : i < l.length) :
    (l.map f).getD i d = f (l.getD i d0) := by
  induction l generalizing i with
  | nil => simp at h
  | cons x xs ih =>
    cases i with
    | zero => simp
    | succ j => simpa using ih j (by simpa using h)

theorem getD_zipWith {α β γ : Type} (f : α → β → γ) (l1 : List α)
    (l2 : List β) (i : Nat) (d : γ) (d1 : α) (d2 : β)
    (h1 : i < l1.length) (h2 : i < l2.length) :
    (List.zipWith f l1 l2).getD i d = f (l1.getD i d1) (l2.getD i d2) := by
  induction l1 generalizing l2 i with
  | nil => simp at h1
  | cons x xs ih =>
    cases l2 with
    | nil => simp at h2
    | cons y ys =>
      cases i with
      | zero => simp
      | succ j =>
        simpa using ih ys j (by simpa using h1) (by simpa using h2)

theorem count_false_add_count_true (l : List Bool) :
    l.count false + l.count true = l.length := by
  induction l with
  | nil => simp
  | cons m ms ih =>
    cases m <;> simp [List.count_cons] <;> omega

theorem mem_filledL {α : Type} (data : List α) (mask : List Bool) (fv : α) :
    ∀ y ∈ filledL data mask fv, y = fv ∨ y ∈ data := by
  induction data generalizing mask with
  | nil =>
    intro y hy
    simp [filledL] at hy
  | cons x xs ih =>
    cases mask with
    | nil =>
      intro y hy
      simp [filledL] at hy
    | cons m ms =>
      intro y hy
      simp only [filledL, List.zipWith_cons_cons, List.mem_cons] at hy
      rcases hy with h | h
      · cases m with
        | true =>
          rw [if_pos rfl] at h
          exact Or.inl h
        | false =>
          rw [if_neg (by decide)] at h
          exact Or.inr (by simp [h])
      · rcases ih ms y h with h' | h'
        · exact Or.inl h'
        · exact Or.inr (List.mem_cons_of_mem x h')

end IndexLemmas

section SumLemmas

theorem foldl_add_eq {M : Type} [AddMonoid M] (x : M) (l : List M) :
    l.foldl (fun p q => p + q) x = x + l.sum := by
  induction l generalizing x with
  | nil => simp
  | cons y ys ih => simp [ih (x + y), add_assoc]

/-- The kernel add-reduce is the list sum. -/
theorem npReduce_add_eq_sum {M : Type} [AddMonoid M] (l : List M) :
    npReduce (fun p q => p + q) 0 l = l.sum := by
  cases l with
  | nil => rfl
  | cons x xs => simp [npReduce, foldl_add_eq]

/-- Filling a mapped list is a zipWith over the original list. -/
theorem filledL_map {α β : Type} (g : α → β) (data : List α)
    (mask : List Bool) (fv : β) :
    filledL (data.map g) mask fv =
      List.zipWith (fun d m => if m then fv else g d) data mask := by
  induction data generalizing mask with
  | nil => simp [filledL]
  | cons x xs ih =>
    cases mask with
    | nil => simp [filledL]
    | cons m ms => simp [filledL] at ih ⊢; exact ih ms

theorem zipWith_ext {α β γ : Type} {f g : α → β → γ}
    (h : ∀ a b, f a b = g a b) (la : List α) (lb : List β) :
    List.zipWith f la lb = List.zipWith g la lb := by
  induction la generalizing lb with
  | nil => simp
  | cons x xs ih =>
    cases lb with
    | nil => simp
    | cons y ys => simp [h, ih]

end SumLemmas

/-- C6: var masks a result exactly when `count <= ddof`, and its value
is the sum of squared deviations from the mean (masked entries
contributing zero, i.e. identity-filled) divided by
`max(count - ddof, 0)`. -/
theorem var_spec (a : MaskedArray Int) (ddof : Nat)
    (hlen : a.mask.length = a.data.length) :
    ((varMA a ddof).mask = true ↔ a.count ≤ ddof) ∧
    (varMA a ddof).data =
      (List.zipWith
          (fun d m => if m then (0 : Rat)
            else (((d : Int) : Rat) - (meanMA a).data) ^ 2)
          a.data a.mask).sum /
        ((max ((a.count : Int) - (ddof : Int)) 0 : Int) : Rat) := by
  constructor
  · simp only [varMA, decide_eq_true_eq]
    omega
  · simp only [varMA, meanMA, List.map_map]
    rw [filledL_map, npReduce_add_eq_sum]
    congr 1
    refine congrArg List.sum (zipWith_ext (fun d m => ?_) a.data a.mask)
    cases m with
    | true => simp
    | false => simp [Function.comp, pow_two]

/-- Witness for C6: data [1, 3] unmasked, ddof 0: variance 1,
not masked. -/
theorem var_spec_witness :
    ((varMA ⟨[1, 3], [false, false]⟩ 0).mask = true ↔
      MaskedArray.count (⟨[1, 3], [false, false]⟩ : MaskedArray Int) ≤ 0) ∧
    (varMA ⟨[1, 3], [false, false]⟩ 0).data =
      (List.zipWith
          (fun d m => if m then (0 : Rat)
            else (((d : Int) : Rat) -
              (meanMA ⟨[1, 3], [false, false]⟩).data) ^ 2)
          [1, 3] [false, false]).sum /
        ((max ((MaskedArray.count
            (⟨[1, 3], [false, false]⟩ : MaskedArray Int) : Int) -
            ((0 : Nat) : Int)) 0 : Int) : Rat) :=
  var_spec ⟨[1, 3], [false, false]⟩ 0 (by decide)

/-- The two sides of `np.searchsorted` (line 1322). -/
inductive Side where
  | left : Side
  | right : Side
  deriving Repr, DecidableEq

/-- `np.searchsorted(l, x, side='left')` on a sorted plain array: the
number of elements strictly below the query. -/
def countLT (l : List Int) (x : Int) : Nat :=
  (l.filter (fun y => y < x)).length

/-- `np.searchsorted(l, x, side='right')` on a sorted plain array: the
number of elements not above the query. -/
def countLE (l : List Int) (x : Int) : Nat :=
  (l.filter (fun y => y ≤ x)).length

/-- `searchsorted` (lines 1322-1346), with a masked target `a` and a
masked query array `v`: `maskleft = len(a) - sum(a.mask)`; both arrays
are min-filled (`filler` models `_min_filler[dtype]`, the maximal dtype
value); the plain searchsorted runs; then for side left the entries at
masked query positions are overwritten with `maskleft`, while for side
right the entries at unmasked query positions holding the filler value
are overwritten with `maskleft`. -/
def searchsortedMA (a v : MaskedArray Int) (side : Side) (filler : Int) :
    List Nat :=
  let maskleft := a.data.length - a.mask.count true
  let aval := a.filled filler
  let vval := v.filled filler
  let inds := vval.map (fun x =>
    match side with
    | Side.left => countLT aval x
    | Side.right => countLE aval x)
  match side with
  | Side.left =>
      List.zipWith (fun i m => if m then maskleft else i) inds v.mask
  | Side.right =>
      List.zipWith
        (fun i dm => if dm.1 = filler ∧ dm.2 = false then maskleft else i)
        inds (v.data.zip v.mask)

/-- C9 counterexample: for side='right' a masked query entry does not
receive the insertion index after the unmasked values of the target.
Target [1, X] (one unmasked element), query [X], filler 100: the result
is [2], not [count of unmasked elements] = [1]. -/
theorem searchsorted_right_masked_ne_count :
    searchsortedMA ⟨[1, 5], [false, true]⟩ ⟨[0], [true]⟩ Side.right 100 ≠
      [(⟨[1, 5], [false, true]⟩ : MaskedArray Int).count] := by
  decide

/-- C9 amended: for side='left' every masked query entry receives the
insertion index after all unmasked values of the target (their count);
for side='right' a masked query entry instead receives the insertion
index after the whole target including its masked tail (`len(a)`), and
it is the unmasked query entries equal to the min-filler that receive
the count of unmasked target values. -/
theorem searchsorted_spec (a v : MaskedArray Int) (filler : Int)
    (hva : v.mask.length = v.data.length)
    (haa : a.mask.length = a.data.length)
    (hbound : ∀ x ∈ a.data, x ≤ filler) :
    (∀ i, i < v.data.length → v.mask.getD i false = true →
      (searchsortedMA a v Side.left filler).getD i 0 = a.count) ∧
    (∀ i, i < v.data.length → v.mask.getD i false = true →
      (searchsortedMA a v Side.right filler).getD i 0 = a.data.length) ∧
    (∀ i, i < v.data.length → v.mask.getD i false = false →
      v.data.getD i 0 = filler →
      (searchsortedMA a v Side.right filler).getD i 0 = a.count) := by
  have hmaskleft : a.data.length - a.mask.count true = a.count := by
    have := count_false_add_count_true a.mask
    simp only [MaskedArray.count]
    omega
  have hvval : (v.filled filler).length = v.data.length := by
    rw [MaskedArray.filled, filledL_length]
    omega
  have haval : (a.filled filler).length = a.data.length := by
    rw [MaskedArray.filled, filledL_length]
    omega
  have havalmem : ∀ y ∈ a.filled filler, y ≤ filler := by
    intro y hy
    rcases mem_filledL a.data a.mask filler y hy with h | h
    · exact h ▸ le_refl filler
    · exact hbound y h
  have hfull : countLE (a.filled filler) filler = a.data.length := by
    rw [countLE, List.filter_eq_self.mpr, haval]
    intro y hy
    exact decide_eq_true (havalmem y hy)
  have hzip : v.data.zip v.mask = List.zipWith Prod.mk v.data v.mask := rfl
  refine ⟨?_, ?_, ?_⟩
  · intro i hi hm
    simp only [searchsortedMA]
    rw [getD_zipWith _ _ _ i 0 0 false
      (by rw [List.length_map]; omega) (by omega)]
    rw [hm, if_pos rfl]
    exact hmaskleft
  · intro i hi hm
    have hq : (v.filled filler).getD i 0 = filler := by
      rw [MaskedArray.filled,
        filledL_getD v.data v.mask filler 0 i hi hva, hm]
      simp
    have hmap : (List.map (fun x => countLE (a.filled filler) x)
        (v.filled filler)).getD i 0 =
        countLE (a.filled filler) ((v.filled filler).getD i 0) :=
      getD_map _ _ i 0 0 (by omega)
    simp only [searchsortedMA]
    rw [hzip, getD_zipWith _ _ _ i 0 0 ((0 : Int), false)
      (by rw [List.length_map]; omega)
      (by rw [List.length_zipWith]; omega)]
    rw [getD_zipWith Prod.mk _ _ i ((0 : Int), false) 0 false
      (by omega) (by omega)]
    rw [hm, if_neg (by simp), hmap, hq]
    exact hfull
  · intro i hi hm hd
    have hmap : (List.map (fun x => countLE (a.filled filler) x)
        (v.filled filler)).getD i 0 =
        countLE (a.filled filler) ((v.filled filler).getD i 0) :=
      getD_map _ _ i 0 0 (by omega)
    simp only [searchsortedMA]
    rw [hzip, getD_zipWith _ _ _ i 0 0 ((0 : Int), false)
      (by rw [List.length_map]; omega)
      (by rw [List.length_zipWith]; omega)]
    rw [getD_zipWith Prod.mk _ _ i ((0 : Int), false) 0 false
      (by omega) (by omega)]
    rw [hm, hd, if_pos ⟨rfl, rfl⟩]
    exact hmaskleft

/-- Witness for C9 amended: target [1, X] (filler 100), queries
[X, 100]: side left sends the masked query to 1 (after the single
unmasked value); side right sends the masked query to 2 (after the
masked tail) and the unmasked filler-valued query to 1. -/
theorem searchsorted_spec_witness :
    (searchsortedMA ⟨[1, 5], [false, true]⟩ ⟨[0, 100], [true, false]⟩
      Side.left 100).getD 0 0 =
      MaskedArray.count (⟨[1, 5], [false, true]⟩ : MaskedArray Int) ∧
    (searchsortedMA ⟨[1, 5], [false, true]⟩ ⟨[0, 100], [true, false]⟩
      Side.right 100).getD 0 0 = 2 ∧
    (searchsortedMA ⟨[1, 5], [false, true]⟩ ⟨[0, 100], [true, false]⟩
      Side.right 100).getD 1 0 =
      MaskedArray.count (⟨[1, 5], [false, true]⟩ : MaskedArray Int) := by
  have h := searchsorted_spec ⟨[1, 5], [false, true]⟩
    ⟨[0, 100], [true, false]⟩ 100 (by decide) (by decide) (by decide)
  exact ⟨h.1 0 (by decide) (by decide),
    h.2.1 0 (by decide) (by decide),
    h.2.2 1 (by decide) (by decide) (by decide)⟩

/-- The comparison used by `np.lexsort` for one masked key (lexsort,
lines 1372-1380): the key list passed to the plain stable lexsort is
`(k.data, k.mask)` with the mask last, so the mask is the primary key
(false before true) and the raw data — including the stored values at
masked positions — is the secondary key. -/
def lexKeyLe (k : MaskedArray Int) (i j : Nat) : Bool :=
  let mi := k.mask.getD i false
  let mj := k.mask.getD j false
  if mi = mj then decide (k.data.getD i 0 ≤ k.data.getD j 0)
  else decide (mi = false)

/-- `lexsort` (lines 1372-1380) for a single masked key: the plain
stable lexsort of the storage collaborator (modelled by a stable
insertion sort of the index list) ordered by mask first, data second. -/
def lexsortMA (k : MaskedArray Int) : List Nat :=
  List.insertionSort (fun i j => lexKeyLe k i j = true)
    (List.range k.data.length)

/-- C1 failing input: the dispatched operation `np.lexsort` reads the
stored data of masked elements into its result.  The two arrays below
have identical masks ([true, true]) and identical data at every
unmasked position (there are none), yet lexsort returns different index
arrays — the plain, fully unmasked result depends on the stored data at
masked positions.  The claim of noninterference over every dispatched
operation is therefore violated by the code. -/
theorem lexsort_reads_masked_data :
    (MaskedArray.mask (⟨[5, 3], [true, true]⟩ : MaskedArray Int) =
      MaskedArray.mask (⟨[3, 5], [true, true]⟩ : MaskedArray Int)) ∧
    (unmaskedL (α := Int) [5, 3] [true, true] =
      unmaskedL (α := Int) [3, 5] [true, true]) ∧
    lexsortMA ⟨[5, 3], [true, true]⟩ ≠ lexsortMA ⟨[3, 5], [true, true]⟩ := by
  refine ⟨rfl, rfl, ?_⟩
  decide

/-- The operand sequence of an `einsum` call as received by the
dispatched implementation (einsum, lines 2082-2095): the full argument
tuple of `np.einsum`, whose first element is the subscripts string in
the standard calling convention. -/
inductive EinsumArg where
  | subs : String → EinsumArg
  | arr : MaskedArray Int → EinsumArg

/-- The first step of the dispatched `einsum` (line 2089):
`data, nmask = zip(*((x._data, ~x._mask) for x in operands))` — every
operand must expose `_data` and `_mask`; a subscripts string does not
and the attribute access fails. -/
def einsumOperandPair : EinsumArg → Except String (List Int × List Bool)
  | EinsumArg.subs _ =>
      Except.error "AttributeError: str object has no attribute _data"
  | EinsumArg.arr a => Except.ok (a.data, a.mask.map (fun m => !m))

/-- The operand-unpacking loop of the dispatched `einsum`. -/
def einsumPrep (ops : List EinsumArg) :
    Except String (List (List Int × List Bool)) :=
  ops.mapM einsumOperandPair

/-- C8 failing input: `np.einsum("i->", MaskedArray([1, 2], mask =
[False, True]))` dispatches with the subscripts string among the
operands, and the implementation fails at its first step instead of
computing the 0-filled data result and the negated-kernel mask the
claim describes.  (The other step of the divergence: even on the
operand that is a masked array, line 2089 takes the raw `_data`
without 0-filling.) -/
theorem einsum_first_step_fails :
    einsumPrep [EinsumArg.subs "i->",
      EinsumArg.arr ⟨[1, 2], [false, true]⟩] =
    Except.error "AttributeError: str object has no attribute _data" ∧
    einsumOperandPair (EinsumArg.arr ⟨[1, 2], [false, true]⟩) =
      Except.ok ([1, 2], [true, false]) := by
  exact ⟨rfl, rfl⟩

/-- A value that is either a scalar or a 1-d vector, as produced by
`getdata`/`getmask` (lines 837-845) for the different operand kinds;
numpy broadcasting between these shapes is modelled by `bvBroadcast2`. -/
inductive BV (α : Type) where
  | scl : α → BV α
  | vec : List α → BV α
  deriving Repr, DecidableEq

/-- Applying a binary kernel with numpy broadcasting: scalar against
scalar, scalar against vector (broadcast), or vector against vector of
equal length; incompatible vector lengths raise in numpy, modelled by
none. -/
def bvBroadcast2 {α β γ : Type} (f : α → β → γ) :
    BV α → BV β → Option (BV γ)
  | BV.scl x, BV.scl y => some (BV.scl (f x y))
  | BV.scl x, BV.vec w => some (BV.vec (w.map (fun y => f x y)))
  | BV.vec v, BV.scl y => some (BV.vec (v.map (fun x => f x y)))
  | BV.vec v, BV.vec w =>
      if v.length = w.length then some (BV.vec (List.zipWith f v w))
      else none

/-- An operand of a dispatched elementwise binary operation
(`_Masked_BinOp.__call__`, lines 909-941): a masked array, a masked
scalar, a plain array, a plain scalar, or the masked sentinel X. -/
inductive Operand where
  | marr : MaskedArray Int → Operand
  | mscal : MaskedScalar Int → Operand
  | parr : List Int → Operand
  | pscal : Int → Operand
  | sentX : Operand
  deriving DecidableEq

/-- `getdata` (lines 837-840), with the sentinel already substituted by
a zero of the other operand's dtype (lines 913-917). -/
def opData : Operand → BV Int
  | Operand.marr a => BV.vec a.data
  | Operand.mscal s => BV.scl s.data
  | Operand.parr l => BV.vec l
  | Operand.pscal x => BV.scl x
  | Operand.sentX => BV.scl 0

/-- `getmask` (lines 842-845): a plain operand contributes the scalar
mask False; the sentinel is substituted by True (lines 913-917). -/
def opMaskCode : Operand → BV Bool
  | Operand.marr a => BV.vec a.mask
  | Operand.mscal s => BV.scl s.mask
  | Operand.parr _ => BV.scl false
  | Operand.pscal _ => BV.scl false
  | Operand.sentX => BV.scl true

/-- Whether an operand carries the masked-operator mixin and therefore
triggers `__array_ufunc__` dispatch (the sentinel and plain operands do
not; a call with no masked operand never reaches the masked
implementation, and a sentinel mixed only with plain operands fails in
the plain-numpy conversion, lines 649-654). -/
def isMaskedType : Operand → Bool
  | Operand.marr _ => true
  | Operand.mscal _ => true
  | _ => false

/-- A dispatched operation's result: a masked scalar when the kernel
result is zero-dimensional, otherwise a masked array (lines 938-941). -/
inductive MResult where
  | rscal : MaskedScalar Int → MResult
  | rarr : MaskedArray Int → MResult
  deriving Repr, DecidableEq

/-- Pairing the kernel result with the computed mask (lines 938-941):
a scalar mask paired with an array result is broadcast over the result
shape by the MaskedArray constructor (lines 274-276); a vector mask
with a scalar result cannot arise from the operand kinds above. -/
def assembleResult : BV Int → BV Bool → Option MResult
  | BV.scl v, BV.scl m => some (MResult.rscal ⟨v, m⟩)
  | BV.vec l, BV.scl m => some (MResult.rarr ⟨l, List.replicate l.length m⟩)
  | BV.vec l, BV.vec ms => some (MResult.rarr ⟨l, ms⟩)
  | BV.scl _, BV.vec _ => none

/-- `_Masked_BinOp.__call__` (lines 909-941): dispatch requires a
masked operand; the sentinel is treated as a masked scalar zero of the
other operand's dtype; the output mask is `np.logical_or(ma, mb)` with
broadcasting; the kernel is applied to the two data components with
broadcasting; result and mask are paired into a masked scalar or
array. -/
def maskedBinop (f : Int → Int → Int) (a b : Operand) : Option MResult :=
  if isMaskedType a = false ∧ isMaskedType b = false then none
  else
    match bvBroadcast2 (fun x y => x || y) (opMaskCode a) (opMaskCode b) with
    | none => none
    | some m =>
      match bvBroadcast2 f (opData a) (opData b) with
      | none => none
      | some r => assembleResult r m

/-- The mask of an operand in the words of the spec: a plain array has
an all-false mask of its own length, a plain scalar the mask False, the
sentinel behaves as a masked scalar. -/
def opMaskSpec : Operand → BV Bool
  | Operand.marr a => BV.vec a.mask
  | Operand.mscal s => BV.scl s.mask
  | Operand.parr l => BV.vec (List.replicate l.length false)
  | Operand.pscal _ => BV.scl false
  | Operand.sentX => BV.scl true

/-- The spec-side mask rule: elementwise logical OR of the two operand
masks under broadcasting. -/
def specOrMask (a b : Operand) : Option (BV Bool) :=
  bvBroadcast2 (fun x y => x || y) (opMaskSpec a) (opMaskSpec b)

/-- The mask carried by a result. -/
def resultMaskB : MResult → BV Bool
  | MResult.rscal s => BV.scl s.mask
  | MResult.rarr x => BV.vec x.mask

/-- Well-formedness of an operand: a masked array satisfies the data
model invariant `mask.shape == data.shape`. -/
def wfOperand : Operand → Prop
  | Operand.marr a => a.mask.length = a.data.length
  | _ => True

theorem zipWith_replicate_right {α β γ : Type} (g : α → β → γ)
    (l : List α) (c : β) :
    List.zipWith g l (List.replicate l.length c) =
      l.map (fun x => g x c) := by
  induction l with
  | nil => simp
  | cons x xs ih => simp [List.replicate_succ, ih]

theorem zipWith_replicate_left {α β γ : Type} (g : α → β → γ)
    (c : α) (l : List β) :
    List.zipWith g (List.replicate l.length c) l =
      l.map (fun y => g c y) := by
  induction l with
  | nil => simp
  | cons x xs ih => simp [List.replicate_succ, ih]

/-- C2: whenever the dispatched binary operation produces a result, the
result's mask is the elementwise logical OR of the two operand masks
broadcast to the result shape (a plain operand contributing an
all-false mask), and a sentinel operand is treated exactly as a masked
scalar zero of the other operand's dtype. -/
theorem binop_mask_spec (f : Int → Int → Int) (a b : Operand)
    (ha : wfOperand a) (hb : wfOperand b) :
    (∀ r, maskedBinop f a b = some r →
      specOrMask a b = some (resultMaskB r)) ∧
    (isMaskedType b = true →
      maskedBinop f Operand.sentX b =
        maskedBinop f (Operand.mscal ⟨0, true⟩) b) ∧
    (isMaskedType a = true →
      maskedBinop f a Operand.sentX =
        maskedBinop f a (Operand.mscal ⟨0, true⟩)) := by
  refine ⟨?_, ?_, ?_⟩
  · intro r hr
    cases a with
    | marr x =>
      cases b with
      | marr y =>
        by_cases hm : x.mask.length = y.mask.length
        · by_cases hd : x.data.length = y.data.length
          · simp [maskedBinop, isMaskedType, opData, opMaskCode,
              bvBroadcast2, assembleResult, hm, hd] at hr
            subst hr
            simp [specOrMask, opMaskSpec, bvBroadcast2, resultMaskB, hm]
          · simp [maskedBinop, isMaskedType, opData, opMaskCode,
              bvBroadcast2, hm, hd] at hr
        · simp [maskedBinop, isMaskedType, opData, opMaskCode,
            bvBroadcast2, hm] at hr
      | mscal s =>
        simp [maskedBinop, isMaskedType, opData, opMaskCode,
          bvBroadcast2, assembleResult] at hr
        subst hr
        simp [specOrMask, opMaskSpec, bvBroadcast2, resultMaskB]
      | parr l =>
        by_cases hd : x.data.length = l.length
        · simp [maskedBinop, isMaskedType, opData, opMaskCode,
            bvBroadcast2, assembleResult, hd] at hr
          subst hr
          have hml : x.mask.length = l.length := ha.trans hd
          simp [specOrMask, opMaskSpec, bvBroadcast2, resultMaskB, hml]
          rw [← hml, zipWith_replicate_right]
          simp
        · simp [maskedBinop, isMaskedType, opData, opMaskCode,
            bvBroadcast2, hd] at hr
      | pscal c =>
        simp [maskedBinop, isMaskedType, opData, opMaskCode,
          bvBroadcast2, assembleResult] at hr
        subst hr
        simp [specOrMask, opMaskSpec, bvBroadcast2, resultMaskB]
      | sentX =>
        simp [maskedBinop, isMaskedType, opData, opMaskCode,
          bvBroadcast2, assembleResult] at hr
        subst hr
        simp [specOrMask, opMaskSpec, bvBroadcast2, resultMaskB]
    | mscal s =>
      cases b with
      | marr y =>
        simp [maskedBinop, isMaskedType, opData, opMaskCode,
          bvBroadcast2, assembleResult] at hr
        subst hr
        simp [specOrMask, opMaskSpec, bvBroadcast2, resultMaskB]
      | mscal t =>
        simp [maskedBinop, isMaskedType, opData, opMaskCode,
          bvBroadcast2, assembleResult] at hr
        subst hr
        simp [specOrMask, opMaskSpec, bvBroadcast2, resultMaskB]
      | parr l =>
        simp [maskedBinop, isMaskedType, opData, opMaskCode,
          bvBroadcast2, assembleResult] at hr
        subst hr
        simp [specOrMask, opMaskSpec, bvBroadcast2, resultMaskB,
          List.map_replicate]
      | pscal c =>
        simp [maskedBinop, isMaskedType, opData, opMaskCode,
          bvBroadcast2, assembleResult] at hr
        subst hr
        simp [specOrMask, opMaskSpec, bvBroadcast2, resultMaskB]
      | sentX =>
        simp [maskedBinop, isMaskedType, opData, opMaskCode,
          bvBroadcast2, assembleResult] at hr
        subst hr
        simp [specOrMask, opMaskSpec, bvBroadcast2, resultMaskB]
    | parr l =>
      cases b with
      | marr y =>
        by_cases hd : l.length = y.data.length
        · simp [maskedBinop, isMaskedType, opData, opMaskCode,
            bvBroadcast2, assembleResult, hd] at hr
          subst hr
          have hml : l.length = y.mask.length := hd.trans hb.symm
          simp [specOrMask, opMaskSpec, bvBroadcast2, resultMaskB, hml]
          rw [zipWith_replicate_left]
          simp
        · simp [maskedBinop, isMaskedType, opData, opMaskCode,
            bvBroadcast2, hd] at hr
      | mscal t =>
        simp [maskedBinop, isMaskedType, opData, opMaskCode,
          bvBroadcast2, assembleResult] at hr
        subst hr
        simp [specOrMask, opMaskSpec, bvBroadcast2, resultMaskB,
          List.map_replicate]
      | parr h => simp [maskedBinop, isMaskedType] at hr
      | pscal c => simp [maskedBinop, isMaskedType] at hr
      | sentX => simp [maskedBinop, isMaskedType] at hr
    | pscal c =>
      cases b with
      | marr y =>
        simp [maskedBinop, isMaskedType, opData, opMaskCode,
          bvBroadcast2, assembleResult] at hr
        subst hr
        simp [specOrMask, opMaskSpec, bvBroadcast2, resultMaskB]
      | mscal t =>
        simp [maskedBinop, isMaskedType, opData, opMaskCode,
          bvBroadcast2, assembleResult] at hr
        subst hr
        simp [specOrMask, opMaskSpec, bvBroadcast2, resultMaskB]
      | parr h => simp [maskedBinop, isMaskedType] at hr
      | pscal d => simp [maskedBinop, isMaskedType] at hr
      | sentX => simp [maskedBinop, isMaskedType] at hr
    | sentX =>
      cases b with
      | marr y =>
        simp [maskedBinop, isMaskedType, opData, opMaskCode,
          bvBroadcast2, assembleResult] at hr
        subst hr
        simp [specOrMask, opMaskSpec, bvBroadcast2, resultMaskB]
      | mscal t =>
        simp [maskedBinop, isMaskedType, opData, opMaskCode,
          bvBroadcast2, assembleResult] at hr
        subst hr
        simp [specOrMask, opMaskSpec, bvBroadcast2, resultMaskB]
      | parr h => simp [maskedBinop, isMaskedType] at hr
      | pscal d => simp [maskedBinop, isMaskedType] at hr
      | sentX => simp [maskedBinop, isMaskedType] at hr
  · intro hmb
    cases b with
    | marr y => rfl
    | mscal s => rfl
    | parr l => simp [isMaskedType] at hmb
    | pscal c => simp [isMaskedType] at hmb
    | sentX => simp [isMaskedType] at hmb
  · intro hma
    cases a with
    | marr y => rfl
    | mscal s => rfl
    | parr l => simp [isMaskedType] at hma
    | pscal c => simp [isMaskedType] at hma
    | sentX => simp [isMaskedType] at hma

/-- Witness for C2: masked array [1, X-ish] plus plain scalar 3 has
result mask [false, true] = OR of the broadcast masks, and a sentinel
operand behaves as the masked scalar zero. -/
theorem binop_mask_spec_witness :
    specOrMask (Operand.marr ⟨[1, 2], [false, true]⟩) (Operand.pscal 3) =
      some (resultMaskB (MResult.rarr ⟨[4, 5], [false, true]⟩)) ∧
    maskedBinop (fun x y => x + y) Operand.sentX
        (Operand.mscal ⟨5, false⟩) =
      maskedBinop (fun x y => x + y) (Operand.mscal ⟨0, true⟩)
        (Operand.mscal ⟨5, false⟩) := by
  have h := binop_mask_spec (fun x y => x + y)
    (Operand.marr ⟨[1, 2], [false, true]⟩) (Operand.pscal 3)
    (by simp [wfOperand]) (by simp [wfOperand])
  have h2 := binop_mask_spec (fun x y => x + y)
    (Operand.pscal 0) (Operand.mscal ⟨5, false⟩)
    (by simp [wfOperand]) (by simp [wfOperand])
  exact ⟨h.1 (MResult.rarr ⟨[4, 5], [false, true]⟩) (by decide),
    h2.2.1 rfl⟩

/-- C10: truth-testing a MaskedScalar whose mask is true returns false
regardless of the stored data value, while truth-testing an unmasked
MaskedScalar returns the truth value of its data (nonzero test). -/
theorem maskedScalar_bool_spec (s : MaskedScalar Int) :
    (s.mask = true → s.toBool = false) ∧
    (s.mask = false → (s.toBool = true ↔ s.data ≠ 0)) := by
  constructor
  · intro h
    simp [MaskedScalar.toBool, h]
  · intro h
    simp [MaskedScalar.toBool, h]

/-- Witness for C10 at concrete scalars: a masked scalar holding 99 is
falsy, an unmasked scalar holding 2 is truthy. -/
theorem maskedScalar_bool_spec_witness :
    (MaskedScalar.toBool ⟨99, true⟩ = false) ∧
    (MaskedScalar.toBool ⟨2, false⟩ = true) :=
  ⟨(maskedScalar_bool_spec ⟨99, true⟩).1 rfl,
   (maskedScalar_bool_spec ⟨2, false⟩).2 rfl |>.mpr (by decide)⟩

/-- C7: constructing a new masked array from `(a.filled(f), a.mask)`
reproduces `a`: the mask is equal everywhere and the data is equal at
every unmasked position. -/
theorem filled_roundtrip (a : MaskedArray Int) (f : Int)
    (hlen : a.mask.length = a.data.length) :
    (mkMaskedArray (a.filled f) a.mask).mask = a.mask ∧
    (∀ i, i < a.data.length → a.mask.getD i false = false →
      (mkMaskedArray (a.filled f) a.mask).data.getD i 0 = a.data.getD i 0) := by
  refine ⟨rfl, ?_⟩
  intro i hi hm
  simp only [mkMaskedArray, MaskedArray.filled]
  rw [filledL_getD a.data a.mask f 0 i hi hlen, hm]
  simp

/-- Witness for C7: round trip at data [1, 2], mask [false, true],
fill value 9. -/
theorem filled_roundtrip_witness :
    (mkMaskedArray (MaskedArray.filled ⟨[1, 2], [false, true]⟩ 9)
        (MaskedArray.mask ⟨[1, 2], [false, true]⟩)).mask = [false, true] ∧
    (mkMaskedArray (MaskedArray.filled ⟨[1, 2], [false, true]⟩ 9)
        (MaskedArray.mask ⟨[1, 2], [false, true]⟩)).data.getD 0 0 = 1 := by
  have h := filled_roundtrip ⟨[1, 2], [false, true]⟩ 9 (by decide)
  exact ⟨h.1, h.2 0 (by decide) (by decide)⟩

/-- C5: mean never divides in a way that raises (the model is a total
function); a slice with zero non-masked elements yields a masked
result. -/
theorem mean_zero_count_masked (a : MaskedArray Int)
    (h : a.count = 0) : (meanMA a).mask = true := by
  simp only [meanMA]
  exact (npAll_eq_true_iff a.mask).mpr
    (count_false_zero_all_true a.mask h)

/-- Witness for C5, the end-to-end example of the spec:
`MaskedArray([1,2], mask=[True,True]).mean()` is a masked scalar. -/
theorem mean_zero_count_masked_witness :
    (meanMA ⟨[1, 2], [true, true]⟩).mask = true :=
  mean_zero_count_masked ⟨[1, 2], [true, true]⟩ (by decide)

/-- C3: for sum, prod and the generic ufunc reduce, the result mask is
true iff every reduced element was masked; in particular a fully masked
array has masked sum, prod and mean.  The data is the plain kernel
reduction of the identity-filled data by construction of
`sumMA`, `prodMA` and `reduceMA`. -/
theorem reduction_mask_all (a : MaskedArray Int) :
    ((sumMA a).mask = true ↔ ∀ m ∈ a.mask, m = true) ∧
    ((prodMA a).mask = true ↔ ∀ m ∈ a.mask, m = true) ∧
    (∀ (f : Int → Int → Int) (fill : Int),
      (reduceMA f fill a).mask = true ↔ ∀ m ∈ a.mask, m = true) ∧
    ((∀ m ∈ a.mask, m = true) →
      (sumMA a).mask = true ∧ (prodMA a).mask = true ∧
      (meanMA a).mask = true) ∧
    (sumMA a).data = npSum (a.filled 0) ∧
    (prodMA a).data = npProd (a.filled 1) := by
  have hall := npAll_eq_true_iff a.mask
  refine ⟨hall, hall, fun f fill => hall, ?_, rfl, rfl⟩
  intro h
  exact ⟨hall.mpr h, hall.mpr h, hall.mpr h⟩

/-- Witness for C3: the fully masked array [1, 2] has masked sum, prod
and mean. -/
theorem reduction_mask_all_witness :
    (sumMA ⟨[1, 2], [true, true]⟩).mask = true ∧
    (prodMA ⟨[1, 2], [true, true]⟩).mask = true ∧
    (meanMA ⟨[1, 2], [true, true]⟩).mask = true :=
  (reduction_mask_all ⟨[1, 2], [true, true]⟩).2.2.2.1 (by decide)

end NDDuck
